import Mathlib

set_option maxHeartbeats 1000000

/-!
Shallow embedding of `src/backend/quantum_optimizer.py` (class
`QuantumFactoryScheduler`): problem setup, QUBO matrix construction,
solution decoding, the greedy random fallback schedule, constraint
checking, metrics, and the comparison report.  Python floats are
modelled as rationals; `np.random` draws are modelled as explicit draw
functions whose support matches the corresponding numpy calls.
-/

/-- The scheduler state set up by `__init__` / `setup_problem`
(quantum_optimizer.py lines 22-81): problem dimensions, the task-duration
dict, the machine-capability dict and the task-dependency dict.  Python
dicts keyed by task/machine indices are modelled as total functions
(defaulting to the empty list for the dependency dict, whose keys are a
subset of `range numTasks`). -/
structure ProblemInstance where
  numTasks : ℕ
  numMachines : ℕ
  timeSlots : ℕ
  taskDurations : ℕ → ℕ
  machineCapabilities : ℕ → List ℕ
  taskDependencies : ℕ → List ℕ

/-- `get_var_index` (lines 90-92 and 278-279):
`task * num_machines * time_slots + machine * time_slots + time`. -/
def getVarIndex (numMachines timeSlots task machine time : ℕ) : ℕ :=
  task * numMachines * timeSlots + machine * timeSlots + time

/-- `qubo_size` (line 87): `num_tasks * num_machines * time_slots`. -/
def quboSize (P : ProblemInstance) : ℕ :=
  P.numTasks * P.numMachines * P.timeSlots

/-- The machine-capability construction of `setup_problem` (lines 59-70):
machine 0 owns tasks with `i % 4 == 0`, machine 1 those with `i % 4 == 1`,
machine 2 those with `i % 4 == 2`, every other machine those with
`i % 4 == 3`. -/
def setupCapabilities (numTasks : ℕ) : ℕ → List ℕ := fun machine =>
  if machine = 0 then (List.range numTasks).filter (fun i => i % 4 == 0)
  else if machine = 1 then (List.range numTasks).filter (fun i => i % 4 == 1)
  else if machine = 2 then (List.range numTasks).filter (fun i => i % 4 == 2)
  else (List.range numTasks).filter (fun i => i % 4 == 3)

/-- Python's `range(0, numTasks - 1, 4)` (line 73): the multiples of 4
strictly below `numTasks - 1`. -/
def rangeStride4 (numTasks : ℕ) : List ℕ :=
  (List.range numTasks).filter (fun i => decide (i % 4 = 0 ∧ i + 1 < numTasks))

/-- The task-dependency construction of `setup_problem` (lines 72-79):
for each block start `i` in `range(0, num_tasks - 1, 4)`, task `i+1`
depends on `i`, task `i+2` on `i+1`, task `i+3` on `i+2`, when in range.
The dict is modelled as a total function with default `[]`. -/
def setupDependencies (numTasks : ℕ) : ℕ → List ℕ :=
  (rangeStride4 numTasks).foldl
    (fun deps i =>
      let deps := if i + 1 < numTasks then Function.update deps (i + 1) [i] else deps
      let deps := if i + 2 < numTasks then Function.update deps (i + 2) [i + 1] else deps
      if i + 3 < numTasks then Function.update deps (i + 3) [i + 2] else deps)
    (fun _ => [])

/-- The range of durations `setup_problem` can draw for a task (lines 44-57):
`np.random.randint(2,5)` for assembly (`task % 4 == 0`), `randint(1,3)` for
quality check, `randint(1,4)` for packaging, `randint(1,2)` for transport. -/
def durationInRange (task duration : ℕ) : Prop :=
  if task % 4 = 0 then 2 ≤ duration ∧ duration < 5
  else if task % 4 = 1 then 1 ≤ duration ∧ duration < 3
  else if task % 4 = 2 then 1 ≤ duration ∧ duration < 4
  else 1 ≤ duration ∧ duration < 2

instance (task duration : ℕ) : Decidable (durationInRange task duration) := by
  unfold durationInRange
  infer_instance

/-- A problem instance whose durations the generator of `setup_problem`
can actually produce. -/
def durationsValid (P : ProblemInstance) : Prop :=
  ∀ task < P.numTasks, durationInRange task (P.taskDurations task)

instance (P : ProblemInstance) : Decidable (durationsValid P) :=
  Nat.decidableBallLT _ _

/-- Constraint 1 of `create_qubo_matrix` (lines 94-106), accumulated value at
entry `(i, j)`: for each `task, m1, t1`, `Q[idx1, idx1] -= 10.0`, and for each
`(m2, t2) ≠ (m1, t1)`, `Q[idx1, idx2] += 10.0`. -/
def quboOneHotTerm (P : ProblemInstance) (i j : ℕ) : ℚ :=
  ∑ task in Finset.range P.numTasks, ∑ m1 in Finset.range P.numMachines,
    ∑ t1 in Finset.range P.timeSlots,
      ((if i = getVarIndex P.numMachines P.timeSlots task m1 t1 ∧
           j = getVarIndex P.numMachines P.timeSlots task m1 t1 then (-10 : ℚ) else 0) +
       ∑ m2 in Finset.range P.numMachines, ∑ t2 in Finset.range P.timeSlots,
         (if (m1, t1) ≠ (m2, t2) ∧
             i = getVarIndex P.numMachines P.timeSlots task m1 t1 ∧
             j = getVarIndex P.numMachines P.timeSlots task m2 t2 then (10 : ℚ) else 0))

/-- Constraint 2 of `create_qubo_matrix` (lines 108-115), accumulated value at
entry `(i, j)`: `Q[idx, idx] += 15.0` for every `(task, machine, time)` where
the machine lacks the task's capability. -/
def quboCapabilityTerm (P : ProblemInstance) (i j : ℕ) : ℚ :=
  ∑ task in Finset.range P.numTasks, ∑ machine in Finset.range P.numMachines,
    (if task ∉ P.machineCapabilities machine then
      ∑ time in Finset.range P.timeSlots,
        (if i = getVarIndex P.numMachines P.timeSlots task machine time ∧
            j = getVarIndex P.numMachines P.timeSlots task machine time then (15 : ℚ) else 0)
     else 0)

/-- Constraint 3 of `create_qubo_matrix` (lines 117-126), accumulated value at
entry `(i, j)`: for every `(task, machine, start_time)` whose full duration
fits (`start_time in range(time_slots - duration + 1)`, rendered as
`Finset.range (timeSlots + 1 - duration)`, which agrees with the Python range
also when the duration exceeds the horizon) and every `dt < duration`,
`Q[idx, idx] -= 12.0 / duration`. -/
def quboDurationTerm (P : ProblemInstance) (i j : ℕ) : ℚ :=
  ∑ task in Finset.range P.numTasks, ∑ machine in Finset.range P.numMachines,
    ∑ startTime in Finset.range (P.timeSlots + 1 - P.taskDurations task),
      ∑ dt in Finset.range (P.taskDurations task),
        (if i = getVarIndex P.numMachines P.timeSlots task machine (startTime + dt) ∧
            j = getVarIndex P.numMachines P.timeSlots task machine (startTime + dt) then
          -(12 : ℚ) / (P.taskDurations task) else 0)

/-- Constraint 4 of `create_qubo_matrix` (lines 128-139), accumulated value at
entry `(i, j)`: for every dependent task and each of its predecessors, every
machine pair `(m1, m2)`, every `t1` and every `t2 in range(t1 + pred_duration,
time_slots)`, `Q[idx1, idx2] -= 20.0` with `idx1` the predecessor variable and
`idx2` the dependent variable.  Note the code writes only `(idx1, idx2)`, never
the transposed entry. -/
def quboPrecedenceTerm (P : ProblemInstance) (i j : ℕ) : ℚ :=
  ∑ task in Finset.range P.numTasks,
    ((P.taskDependencies task).map (fun predTask =>
      ∑ m1 in Finset.range P.numMachines, ∑ m2 in Finset.range P.numMachines,
        ∑ t1 in Finset.range P.timeSlots,
          ∑ t2 in Finset.Ico (t1 + P.taskDurations predTask) P.timeSlots,
            (if i = getVarIndex P.numMachines P.timeSlots predTask m1 t1 ∧
                j = getVarIndex P.numMachines P.timeSlots task m2 t2 then (-20 : ℚ) else 0))).sum

/-- The objective term of `create_qubo_matrix` (lines 141-148), accumulated
value at entry `(i, j)`: `Q[idx, idx] += 1.0 * time / time_slots` for every
`(task, machine, time)`. -/
def quboObjectiveTerm (P : ProblemInstance) (i j : ℕ) : ℚ :=
  ∑ task in Finset.range P.numTasks, ∑ machine in Finset.range P.numMachines,
    ∑ time in Finset.range P.timeSlots,
      (if i = getVarIndex P.numMachines P.timeSlots task machine time ∧
          j = getVarIndex P.numMachines P.timeSlots task machine time then
        (time : ℚ) / (P.timeSlots : ℚ) else 0)

/-- `create_qubo_matrix` (lines 83-150): the matrix starts as `np.zeros` and
every statement only accumulates (`+=` / `-=`), so the final entry `(i, j)` is
the sum of the five per-constraint contributions. -/
def quboEntry (P : ProblemInstance) (i j : ℕ) : ℚ :=
  quboOneHotTerm P i j + quboCapabilityTerm P i j + quboDurationTerm P i j +
    quboPrecedenceTerm P i j + quboObjectiveTerm P i j

/-- The allocation step of `create_qubo_matrix` over Python integers:
`qubo_size = num_tasks * num_machines * time_slots` followed by
`np.zeros((qubo_size, qubo_size))` (lines 87-88).  numpy raises
`ValueError: negative dimensions are not allowed` when the size is negative;
no size validation of any kind precedes the allocation. -/
def quboAllocationResult (numTasks numMachines timeSlots : ℤ) : Except String ℤ :=
  if numTasks * numMachines * timeSlots < 0 then
    Except.error "ValueError: negative dimensions are not allowed"
  else Except.ok (numTasks * numMachines * timeSlots)

/-- A task's entry in `schedule['tasks']` (lines 297-302 / 336-341):
`{machine, start_time, end_time, duration}`. -/
structure TaskInfo where
  machine : ℕ
  startTime : ℕ
  endTime : ℕ
  duration : ℕ
deriving DecidableEq, Repr

/-- An entry of a per-machine timeline `schedule['machines'][m]`
(lines 304-308 / 343-347): `{task, start_time, end_time}`. -/
structure MachineEntry where
  task : ℕ
  startTime : ℕ
  endTime : ℕ
deriving DecidableEq, Repr

/-- The `schedule` dict built by `decode_solution` / `generate_random_schedule`:
`tasks` is the insertion-ordered dict `schedule['tasks']` (each task key is
written at most once, so an association list), `machines` maps each machine to
its timeline list.  The unused `timeline` key is omitted. -/
structure Schedule where
  tasks : List (ℕ × TaskInfo)
  machines : ℕ → List MachineEntry

/-- Explicit model of the `np.random` draws consumed by
`generate_random_schedule` (lines 332-334): `machinePick task` drives
`np.random.choice(valid_machines)` (reduced modulo the list length, so its
support is exactly the list) and `startPick task` drives
`np.random.randint(0, max(1, time_slots - duration))` (reduced modulo that
bound, so its support is exactly `[0, max(1, time_slots - duration))`). -/
structure Rng where
  machinePick : ℕ → ℕ
  startPick : ℕ → ℕ

/-- Stable insertion of a machine entry keeping earlier-start entries first;
entries with equal `start_time` keep their original relative order. -/
def insertByStart (e : MachineEntry) : List MachineEntry → List MachineEntry
  | [] => [e]
  | a :: rest =>
    if a.startTime ≤ e.startTime then a :: insertByStart e rest else e :: a :: rest

/-- The in-place stable sort `schedule['machines'][machine].sort(key=lambda
x: x['start_time'])` (lines 310-312); Python's list sort is a stable sort by
the key, modelled as a stable insertion sort. -/
def sortByStart (l : List MachineEntry) : List MachineEntry :=
  l.foldr insertByStart []

/-- The iteration order of the scan in `decode_solution` (lines 286-291):
machine-major, time-minor. -/
def mtPairs (P : ProblemInstance) : List (ℕ × ℕ) :=
  (List.range P.numMachines).flatMap
    (fun machine => (List.range P.timeSlots).map (fun time => (machine, time)))

/-- The inner scan of `decode_solution` for one task (lines 283-291): starting
from `best_value = -1`, `best_assignment = None`, replace the running best at
every in-range index whose value is strictly greater.  Out-of-range indices are
skipped by the `idx < len(solution_vector)` guard (the `getD` default is never
read because of that guard). -/
def scanAssignments (P : ProblemInstance) (v : List ℚ) (task : ℕ) :
    ℚ × Option (ℕ × ℕ) :=
  (mtPairs P).foldl
    (fun acc mt =>
      let idx := getVarIndex P.numMachines P.timeSlots task mt.1 mt.2
      if idx < v.length ∧ acc.1 < v.getD idx 0 then (v.getD idx 0, some mt) else acc)
    (-1, none)

/-- One iteration of the greedy loop of `generate_random_schedule`
(lines 326-347): a task with no capable machine is skipped; otherwise a
random capable machine and a random start in
`[0, max(1, time_slots - duration))` are drawn (the `ℕ` subtraction
`timeSlots - duration` truncates at 0 exactly like `max(1, ...)` collapses
non-positive Python values). -/
def randomStep (P : ProblemInstance) (rng : Rng) (sched : Schedule) (task : ℕ) :
    Schedule :=
  let validMachines :=
    (List.range P.numMachines).filter (fun m => task ∈ P.machineCapabilities m)
  if validMachines ≠ [] then
    let machine := validMachines.getD (rng.machinePick task % validMachines.length) 0
    let duration := P.taskDurations task
    let startTime := rng.startPick task % max 1 (P.timeSlots - duration)
    { tasks := sched.tasks ++ [(task, ⟨machine, startTime, startTime + duration, duration⟩)],
      machines := fun m =>
        if m = machine then
          sched.machines m ++ [⟨task, startTime, startTime + duration⟩]
        else sched.machines m }
  else sched

/-- `generate_random_schedule` (lines 316-349): the greedy loop over all
tasks, starting from the empty schedule.  The machine timelines are not
sorted here. -/
def generateRandomSchedule (P : ProblemInstance) (rng : Rng) : Schedule :=
  (List.range P.numTasks).foldl (randomStep P rng) ⟨[], fun _ => []⟩

/-- One iteration of the assignment-extraction loop of `decode_solution`
(lines 282-308): when the scan found a (truthy) best assignment, record it in
the tasks dict and on its machine's timeline. -/
def decodeStep (P : ProblemInstance) (v : List ℚ) (sched : Schedule) (task : ℕ) :
    Schedule :=
  match (scanAssignments P v task).2 with
  | some mt =>
    let duration := P.taskDurations task
    { tasks := sched.tasks ++ [(task, ⟨mt.1, mt.2, mt.2 + duration, duration⟩)],
      machines := fun m =>
        if m = mt.1 then sched.machines m ++ [⟨task, mt.2, mt.2 + duration⟩]
        else sched.machines m }
  | none => sched

/-- `decode_solution` (lines 265-314): `None` falls back to the random
schedule (lines 268-270); otherwise the extraction loop runs over all tasks
and finally every machine timeline is sorted by start time (lines 310-312). -/
def decodeSolution (P : ProblemInstance) (rng : Rng) (solutionVector : Option (List ℚ)) :
    Schedule :=
  match solutionVector with
  | none => generateRandomSchedule P rng
  | some v =>
    let sched := (List.range P.numTasks).foldl (decodeStep P v) ⟨[], fun _ => []⟩
    { sched with machines := fun m => sortByStart (sched.machines m) }

/-- The vector value the decoder reads for the `(machine, time)` pair of a
task (line 289), with default 0 for out-of-range indices (the code's
`idx < len(solution_vector)` guard makes the default irrelevant). -/
def pairValue (P : ProblemInstance) (v : List ℚ) (task : ℕ) (p : ℕ × ℕ) : ℚ :=
  v.getD (getVarIndex P.numMachines P.timeSlots task p.1 p.2) 0

/-- The selection rule as the specification words it ("select the pair with
the highest vector value, ties broken by the first-encountered pair in
machine-major, time-minor iteration order"): the first pair of `mtPairs`
whose value attains the maximum (the scan's running maximum starts at -1,
matching `best_value = -1`). -/
def specSelectedPair (P : ProblemInstance) (v : List ℚ) (task : ℕ) :
    Option (ℕ × ℕ) :=
  (mtPairs P).find? (fun p => decide (pairValue P v task p
    = ((mtPairs P).map (pairValue P v task)).foldl max (-1)))

/-- The overlap double loop of `check_constraints` (lines 401-408) on one
machine timeline: for every `i < j`, one violation when the two half-open
intervals intersect (`task1.start < task2.end and task2.start < task1.end`). -/
def countOverlapPairs : List MachineEntry → ℕ
  | [] => 0
  | a :: rest =>
    (rest.map (fun b => if a.startTime < b.endTime ∧ b.startTime < a.endTime then 1 else 0)).sum
      + countOverlapPairs rest

/-- `check_constraints` (lines 379-410): capability violations over the tasks
dict, precedence violations over the dependency dict (modelled by iterating
the tasks range, since the dict's keys are a subset of it), and the pairwise
overlap count per machine timeline. -/
def checkConstraints (P : ProblemInstance) (s : Schedule) : ℕ :=
  let capViolations :=
    (s.tasks.map (fun e => if e.1 ∈ P.machineCapabilities e.2.machine then 0 else 1)).sum
  let precViolations :=
    ((List.range P.numTasks).map (fun task =>
      match s.tasks.lookup task with
      | none => 0
      | some info =>
        ((P.taskDependencies task).map (fun predTask =>
          match s.tasks.lookup predTask with
          | none => 0
          | some predInfo => if info.startTime < predInfo.endTime then 1 else 0)).sum)).sum
  let overlapViolations :=
    ((List.range P.numMachines).map (fun machine =>
      countOverlapPairs (s.machines machine))).sum
  capViolations + precViolations + overlapViolations

/-- The metrics dict of `calculate_metrics` (lines 351-377).  `float('inf')`
is modelled as `⊤ : WithTop ℕ`; the `constraint_violations` and
`objective_score` keys are absent (`none`) exactly when the early empty-tasks
return fires. -/
structure Metrics where
  makespan : WithTop ℕ
  efficiency : ℚ
  utilization : ℚ
  constraintViolations : Option ℕ
  objectiveScore : Option ℚ
deriving DecidableEq, Repr

/-- `calculate_metrics` (lines 351-377).  Python float constants are modelled
as exact rationals.  For a non-empty schedule: makespan is the max end time,
utilization is total busy time over `num_machines * time_slots`, efficiency is
`(time_slots - makespan) / time_slots` when `makespan < time_slots` else 0,
and the objective score is
`efficiency * 0.6 + utilization * 0.4 - violations * 0.1`. -/
def calculateMetrics (P : ProblemInstance) (s : Schedule) : Metrics :=
  if s.tasks = [] then ⟨⊤, 0, 0, none, none⟩
  else
    let makespan := (s.tasks.map (fun e => e.2.endTime)).foldl max 0
    let totalBusyTime := (s.tasks.map (fun e => e.2.duration)).sum
    let totalAvailableTime := P.numMachines * P.timeSlots
    let utilization : ℚ := (totalBusyTime : ℚ) / (totalAvailableTime : ℚ)
    let efficiency : ℚ :=
      if makespan < P.timeSlots then
        ((P.timeSlots : ℚ) - (makespan : ℚ)) / (P.timeSlots : ℚ)
      else 0
    let violations := checkConstraints P s
    ⟨(makespan : WithTop ℕ), efficiency, utilization, some violations,
      some (efficiency * (6 / 10) + utilization * (4 / 10) - (violations : ℚ) * (1 / 10))⟩

/-- The `comparison` sub-dict of `run_optimization_comparison`
(lines 464-475), as a function of the two metrics dicts:
`quantum_advantage = classical.objective_score - quantum.objective_score`,
`efficiency_improvement = quantum.efficiency - classical.efficiency`,
`utilization_improvement = quantum.utilization - classical.utilization`.
The two `['objective_score']` dict accesses raise `KeyError` when the key is
absent, modelled by the `Option` bind (classical is accessed first). -/
structure ComparisonDeltas where
  quantumAdvantage : Option ℚ
  efficiencyImprovement : ℚ
  utilizationImprovement : ℚ
deriving DecidableEq, Repr

def comparisonDeltas (quantumMetrics classicalMetrics : Metrics) : ComparisonDeltas :=
  { quantumAdvantage :=
      (classicalMetrics.objectiveScore.bind (fun c =>
        quantumMetrics.objectiveScore.map (fun q => c - q))),
    efficiencyImprovement := quantumMetrics.efficiency - classicalMetrics.efficiency,
    utilizationImprovement := quantumMetrics.utilization - classicalMetrics.utilization }

/-- The inverse of the `get_var_index` flattening, constructed for the
bijection claim (the source defines no decoder for indices; this follows the
spec's mixed-radix reading of `task*numMachines*timeSlots + machine*timeSlots
+ time`). -/
def unflattenIndex (numMachines timeSlots idx : ℕ) : ℕ × ℕ × ℕ :=
  (idx / (numMachines * timeSlots), idx % (numMachines * timeSlots) / timeSlots,
    idx % timeSlots)

/-- The task-info record `decode_solution` would record for one task, as an
optional value: present exactly when the scan found a best assignment. -/
def decodeTaskInfo (P : ProblemInstance) (v : List ℚ) (task : ℕ) : Option TaskInfo :=
  ((scanAssignments P v task).2).map
    (fun mt => ⟨mt.1, mt.2, mt.2 + P.taskDurations task, P.taskDurations task⟩)

/-- The task-info record `generate_random_schedule` would record for one
task, as an optional value: present exactly when some machine is capable. -/
def randomTaskInfo (P : ProblemInstance) (rng : Rng) (task : ℕ) : Option TaskInfo :=
  let validMachines :=
    (List.range P.numMachines).filter (fun m => task ∈ P.machineCapabilities m)
  if validMachines ≠ [] then
    some ⟨validMachines.getD (rng.machinePick task % validMachines.length) 0,
      rng.startPick task % max 1 (P.timeSlots - P.taskDurations task),
      rng.startPick task % max 1 (P.timeSlots - P.taskDurations task) +
        P.taskDurations task,
      P.taskDurations task⟩
  else none

/-! ## Helper lemmas -/

lemma foldl_fixed_of_step_id {α β : Type} (f : α → β → α) (l : List β)
    (h : ∀ a b, f a b = a) (a : α) : l.foldl f a = a := by
  induction l generalizing a with
  | nil => rfl
  | cons b t ih => rw [List.foldl_cons, h a b]; exact ih a

lemma scanAssignments_nil (P : ProblemInstance) (task : ℕ) :
    scanAssignments P [] task = (-1, none) := by
  unfold scanAssignments
  exact foldl_fixed_of_step_id _ _ (fun a b => by simp) _

lemma decodeStep_tasks (P : ProblemInstance) (v : List ℚ) (sched : Schedule)
    (task : ℕ) :
    (decodeStep P v sched task).tasks
      = sched.tasks ++ ((decodeTaskInfo P v task).map (fun i => (task, i))).toList := by
  unfold decodeStep decodeTaskInfo
  cases (scanAssignments P v task).2 with
  | none => simp
  | some mt => simp

lemma randomStep_tasks (P : ProblemInstance) (rng : Rng) (sched : Schedule)
    (task : ℕ) :
    (randomStep P rng sched task).tasks
      = sched.tasks ++ ((randomTaskInfo P rng task).map (fun i => (task, i))).toList := by
  unfold randomStep randomTaskInfo
  by_cases h :
      (List.range P.numMachines).filter (fun m => task ∈ P.machineCapabilities m) ≠ []
  · rw [if_pos h, if_pos h]; simp
  · rw [if_neg h, if_neg h]; simp

lemma foldl_tasks_shape {step : Schedule → ℕ → Schedule}
    {entry : ℕ → Option TaskInfo}
    (hstep : ∀ sched task, (step sched task).tasks
      = sched.tasks ++ ((entry task).map (fun i => (task, i))).toList) :
    ∀ (l : List ℕ) (acc : Schedule),
      (l.foldl step acc).tasks
        = acc.tasks ++ l.filterMap (fun t => (entry t).map (fun i => (t, i))) := by
  intro l
  induction l with
  | nil => intro acc; simp
  | cons a t ih =>
    intro acc
    rw [List.foldl_cons, ih (step acc a), hstep acc a, List.filterMap_cons]
    cases entry a with
    | none => simp
    | some i => simp

lemma decode_tasks_eq (P : ProblemInstance) (rng : Rng) (v : List ℚ) :
    (decodeSolution P rng (some v)).tasks
      = (List.range P.numTasks).filterMap
          (fun t => (decodeTaskInfo P v t).map (fun i => (t, i))) := by
  show ((List.range P.numTasks).foldl (decodeStep P v) ⟨[], fun _ => []⟩).tasks
    = _
  rw [foldl_tasks_shape (decodeStep_tasks P v) (List.range P.numTasks)]
  rfl

lemma random_tasks_eq (P : ProblemInstance) (rng : Rng) :
    (generateRandomSchedule P rng).tasks
      = (List.range P.numTasks).filterMap
          (fun t => (randomTaskInfo P rng t).map (fun i => (t, i))) := by
  unfold generateRandomSchedule
  rw [foldl_tasks_shape (randomStep_tasks P rng) (List.range P.numTasks)]
  rfl

lemma lookup_filterMap_info (g : ℕ → Option TaskInfo) :
    ∀ (l : List ℕ), l.Nodup → ∀ task info, task ∈ l → g task = some info →
      (l.filterMap (fun t => (g t).map (fun i => (t, i)))).lookup task = some info := by
  intro l
  induction l with
  | nil => intro _ task info hmem; exact absurd hmem (List.not_mem_nil task)
  | cons a rest ih =>
    intro hnodup task info hmem hg
    rw [List.filterMap_cons]
    cases hga : g a with
    | none =>
      have htask : task ∈ rest := by
        cases List.mem_cons.mp hmem with
        | inl h => exact absurd hg (by rw [h, hga]; exact Option.noConfusion)
        | inr h => exact h
      exact ih (List.Nodup.of_cons hnodup) task info htask hg
    | some i =>
      simp only [Option.map_some']
      by_cases hta : task = a
      · subst hta
        have : i = info := by rw [hg] at hga; exact (Option.some.injEq _ _).mp hga.symm
        subst this
        simp [List.lookup]
      · have htask : task ∈ rest := by
          cases List.mem_cons.mp hmem with
          | inl h => exact absurd h hta
          | inr h => exact h
        simp only [List.lookup_cons, beq_false_of_ne hta]
        exact ih (List.Nodup.of_cons hnodup) task info htask hg

lemma mul_time_add_lt (numMachines timeSlots machine time : ℕ)
    (hmach : machine < numMachines) (htime : time < timeSlots) :
    machine * timeSlots + time < numMachines * timeSlots :=
  calc machine * timeSlots + time < machine * timeSlots + timeSlots := by omega
    _ = (machine + 1) * timeSlots := by ring
    _ ≤ numMachines * timeSlots := Nat.mul_le_mul_right _ (by omega)

lemma getVarIndex_lt (numTasks numMachines timeSlots task machine time : ℕ)
    (htask : task < numTasks) (hmach : machine < numMachines) (htime : time < timeSlots) :
    getVarIndex numMachines timeSlots task machine time <
      numTasks * numMachines * timeSlots := by
  have hmt := mul_time_add_lt numMachines timeSlots machine time hmach htime
  calc getVarIndex numMachines timeSlots task machine time
      = task * (numMachines * timeSlots) + (machine * timeSlots + time) := by
        unfold getVarIndex; ring
    _ < task * (numMachines * timeSlots) + numMachines * timeSlots := by omega
    _ = (task + 1) * (numMachines * timeSlots) := by ring
    _ ≤ numTasks * (numMachines * timeSlots) := Nat.mul_le_mul_right _ (by omega)
    _ = numTasks * numMachines * timeSlots := by ring

lemma le_foldl_max (l : List ℚ) (b : ℚ) : b ≤ l.foldl max b := by
  induction l generalizing b with
  | nil => exact le_refl b
  | cons a t ih => exact le_trans (le_max_left b a) (ih (max b a))

lemma mem_le_foldl_max (l : List ℚ) (b : ℚ) : ∀ x ∈ l, x ≤ l.foldl max b := by
  induction l generalizing b with
  | nil => intro x hx; exact absurd hx (List.not_mem_nil x)
  | cons a t ih =>
    intro x hx
    rw [List.foldl_cons]
    cases List.mem_cons.mp hx with
    | inl h => subst h; exact le_trans (le_max_right b x) (le_foldl_max t _)
    | inr h => exact ih (max b a) x h

lemma foldl_max_mem (l : List ℚ) (b : ℚ) :
    l.foldl max b = b ∨ l.foldl max b ∈ l := by
  induction l generalizing b with
  | nil => left; rfl
  | cons a t ih =>
    rw [List.foldl_cons]
    rcases ih (max b a) with h | h
    · rcases le_total b a with hba | hab
      · right; rw [h, max_eq_right hba]; exact List.mem_cons_self a t
      · left; rw [h, max_eq_left hab]
    · right; exact List.mem_cons_of_mem a h

/-- The running best of the selection loop: starting from
`(best_value, best_assignment) = (-1, None)` (or any seed), the loop returns
the maximum of the seed and all values, paired with the first element
attaining that maximum — or the seed pair when nothing improves on it. -/
lemma scan_foldl_spec {α : Type} (val : α → ℚ) :
    ∀ (l : List α) (b : ℚ) (o : Option α),
      l.foldl (fun acc p => if acc.1 < val p then (val p, some p) else acc) (b, o)
        = if b < (l.map val).foldl max b then
            ((l.map val).foldl max b,
              l.find? (fun p => decide (val p = (l.map val).foldl max b)))
          else (b, o) := by
  intro l
  induction l with
  | nil => intro b o; simp
  | cons p rest ih =>
    intro b o
    rw [List.foldl_cons, List.map_cons, List.foldl_cons]
    by_cases hpb : b < val p
    · rw [if_pos hpb, ih (val p) (some p), max_eq_right hpb.le]
      have hM : val p ≤ (rest.map val).foldl max (val p) := le_foldl_max _ _
      rw [if_pos (lt_of_lt_of_le hpb hM)]
      by_cases hpM : val p < (rest.map val).foldl max (val p)
      · rw [if_pos hpM, List.find?_cons_of_neg]
        simpa using ne_of_lt hpM
      · have heq : (rest.map val).foldl max (val p) = val p :=
          le_antisymm (not_lt.mp hpM) hM
        rw [if_neg hpM, List.find?_cons_of_pos, heq]
        simpa using heq.symm
    · rw [if_neg hpb, ih b o, max_eq_left (not_lt.mp hpb)]
      by_cases hbM : b < (rest.map val).foldl max b
      · rw [if_pos hbM, if_pos hbM, List.find?_cons_of_neg]
        simpa using ne_of_lt (lt_of_le_of_lt (not_lt.mp hpb) hbM)
      · rw [if_neg hbM, if_neg hbM]

lemma mem_mtPairs (P : ProblemInstance) (p : ℕ × ℕ) :
    p ∈ mtPairs P ↔ p.1 < P.numMachines ∧ p.2 < P.timeSlots := by
  unfold mtPairs
  constructor
  · intro h
    obtain ⟨m, hm, hmem⟩ := List.mem_flatMap.mp h
    obtain ⟨t, ht, hpt⟩ := List.mem_map.mp hmem
    rw [← hpt]
    exact ⟨List.mem_range.mp hm, List.mem_range.mp ht⟩
  · intro ⟨h1, h2⟩
    refine List.mem_flatMap.mpr ⟨p.1, List.mem_range.mpr h1, ?_⟩
    exact List.mem_map.mpr ⟨p.2, List.mem_range.mpr h2, rfl⟩

lemma diag_if_comm (i j idx : ℕ) (c : ℚ) :
    (if i = idx ∧ j = idx then c else 0) = (if j = idx ∧ i = idx then c else 0) :=
  if_congr and_comm rfl rfl

lemma sum4_pair_swap (M T : ℕ) (g : ℕ → ℕ → ℕ → ℕ → ℚ) :
    (∑ m1 in Finset.range M, ∑ t1 in Finset.range T,
      ∑ m2 in Finset.range M, ∑ t2 in Finset.range T, g m1 t1 m2 t2)
      = ∑ m1 in Finset.range M, ∑ t1 in Finset.range T,
          ∑ m2 in Finset.range M, ∑ t2 in Finset.range T, g m2 t2 m1 t1 :=
  calc (∑ m1 in Finset.range M, ∑ t1 in Finset.range T,
          ∑ m2 in Finset.range M, ∑ t2 in Finset.range T, g m1 t1 m2 t2)
      = ∑ m1 in Finset.range M, ∑ m2 in Finset.range M,
          ∑ t1 in Finset.range T, ∑ t2 in Finset.range T, g m1 t1 m2 t2 :=
        Finset.sum_congr rfl fun _ _ => Finset.sum_comm
    _ = ∑ m2 in Finset.range M, ∑ m1 in Finset.range M,
          ∑ t1 in Finset.range T, ∑ t2 in Finset.range T, g m1 t1 m2 t2 :=
        Finset.sum_comm
    _ = ∑ m2 in Finset.range M, ∑ m1 in Finset.range M,
          ∑ t2 in Finset.range T, ∑ t1 in Finset.range T, g m1 t1 m2 t2 :=
        Finset.sum_congr rfl fun _ _ => Finset.sum_congr rfl fun _ _ =>
          Finset.sum_comm
    _ = ∑ m2 in Finset.range M, ∑ t2 in Finset.range T,
          ∑ m1 in Finset.range M, ∑ t1 in Finset.range T, g m1 t1 m2 t2 :=
        Finset.sum_congr rfl fun _ _ => Finset.sum_comm

lemma quboOneHotTerm_comm (P : ProblemInstance) (i j : ℕ) :
    quboOneHotTerm P i j = quboOneHotTerm P j i := by
  unfold quboOneHotTerm
  simp only [Finset.sum_add_distrib]
  congr 1
  · exact Finset.sum_congr rfl fun task _ => Finset.sum_congr rfl fun m1 _ =>
      Finset.sum_congr rfl fun t1 _ => diag_if_comm i j _ _
  · refine Finset.sum_congr rfl fun task _ => ?_
    calc (∑ m1 in Finset.range P.numMachines, ∑ t1 in Finset.range P.timeSlots,
            ∑ m2 in Finset.range P.numMachines, ∑ t2 in Finset.range P.timeSlots,
              (if (m1, t1) ≠ (m2, t2) ∧
                  i = getVarIndex P.numMachines P.timeSlots task m1 t1 ∧
                  j = getVarIndex P.numMachines P.timeSlots task m2 t2
                then (10:ℚ) else 0))
        = ∑ m1 in Finset.range P.numMachines, ∑ t1 in Finset.range P.timeSlots,
            ∑ m2 in Finset.range P.numMachines, ∑ t2 in Finset.range P.timeSlots,
              (if (m2, t2) ≠ (m1, t1) ∧
                  i = getVarIndex P.numMachines P.timeSlots task m2 t2 ∧
                  j = getVarIndex P.numMachines P.timeSlots task m1 t1
                then (10:ℚ) else 0) := sum4_pair_swap _ _ _
      _ = ∑ m1 in Finset.range P.numMachines, ∑ t1 in Finset.range P.timeSlots,
            ∑ m2 in Finset.range P.numMachines, ∑ t2 in Finset.range P.timeSlots,
              (if (m1, t1) ≠ (m2, t2) ∧
                  j = getVarIndex P.numMachines P.timeSlots task m1 t1 ∧
                  i = getVarIndex P.numMachines P.timeSlots task m2 t2
                then (10:ℚ) else 0) :=
          Finset.sum_congr rfl fun m1 _ => Finset.sum_congr rfl fun t1 _ =>
            Finset.sum_congr rfl fun m2 _ => Finset.sum_congr rfl fun t2 _ =>
              if_congr
                ⟨fun ⟨h1, h2, h3⟩ => ⟨Ne.symm h1, h3, h2⟩,
                 fun ⟨h1, h2, h3⟩ => ⟨Ne.symm h1, h3, h2⟩⟩ rfl rfl

lemma quboCapabilityTerm_comm (P : ProblemInstance) (i j : ℕ) :
    quboCapabilityTerm P i j = quboCapabilityTerm P j i := by
  unfold quboCapabilityTerm
  refine Finset.sum_congr rfl fun task _ => Finset.sum_congr rfl fun machine _ => ?_
  by_cases hc : task ∉ P.machineCapabilities machine
  · rw [if_pos hc, if_pos hc]
    exact Finset.sum_congr rfl fun time _ => diag_if_comm i j _ _
  · rw [if_neg hc, if_neg hc]

lemma quboDurationTerm_comm (P : ProblemInstance) (i j : ℕ) :
    quboDurationTerm P i j = quboDurationTerm P j i := by
  unfold quboDurationTerm
  exact Finset.sum_congr rfl fun task _ => Finset.sum_congr rfl fun machine _ =>
    Finset.sum_congr rfl fun startTime _ => Finset.sum_congr rfl fun dt _ =>
      diag_if_comm i j _ _

lemma quboObjectiveTerm_comm (P : ProblemInstance) (i j : ℕ) :
    quboObjectiveTerm P i j = quboObjectiveTerm P j i := by
  unfold quboObjectiveTerm
  exact Finset.sum_congr rfl fun task _ => Finset.sum_congr rfl fun machine _ =>
    Finset.sum_congr rfl fun time _ => diag_if_comm i j _ _

lemma quboOneHotTerm_out (P : ProblemInstance) (i j : ℕ)
    (h : quboSize P ≤ i ∨ quboSize P ≤ j) : quboOneHotTerm P i j = 0 := by
  unfold quboOneHotTerm
  refine Finset.sum_eq_zero fun task htask => ?_
  refine Finset.sum_eq_zero fun m1 hm1 => ?_
  refine Finset.sum_eq_zero fun t1 ht1 => ?_
  have hidx1 := getVarIndex_lt P.numTasks P.numMachines P.timeSlots task m1 t1
    (Finset.mem_range.mp htask) (Finset.mem_range.mp hm1) (Finset.mem_range.mp ht1)
  have hdiag : (if i = getVarIndex P.numMachines P.timeSlots task m1 t1 ∧
      j = getVarIndex P.numMachines P.timeSlots task m1 t1 then (-10:ℚ) else 0) = 0 := by
    rw [if_neg]
    rintro ⟨rfl, rfl⟩
    unfold quboSize at h
    rcases h with h | h <;> omega
  have hcross : (∑ m2 in Finset.range P.numMachines, ∑ t2 in Finset.range P.timeSlots,
      (if (m1, t1) ≠ (m2, t2) ∧
          i = getVarIndex P.numMachines P.timeSlots task m1 t1 ∧
          j = getVarIndex P.numMachines P.timeSlots task m2 t2
        then (10:ℚ) else 0)) = 0 := by
    refine Finset.sum_eq_zero fun m2 hm2 => Finset.sum_eq_zero fun t2 ht2 => ?_
    have hidx2 := getVarIndex_lt P.numTasks P.numMachines P.timeSlots task m2 t2
      (Finset.mem_range.mp htask) (Finset.mem_range.mp hm2) (Finset.mem_range.mp ht2)
    rw [if_neg]
    rintro ⟨-, rfl, rfl⟩
    unfold quboSize at h
    rcases h with h | h <;> omega
  rw [hdiag, hcross, add_zero]

lemma quboCapabilityTerm_out (P : ProblemInstance) (i j : ℕ)
    (h : quboSize P ≤ i ∨ quboSize P ≤ j) : quboCapabilityTerm P i j = 0 := by
  unfold quboCapabilityTerm
  refine Finset.sum_eq_zero fun task htask => ?_
  refine Finset.sum_eq_zero fun machine hmach => ?_
  by_cases hc : task ∉ P.machineCapabilities machine
  · rw [if_pos hc]
    refine Finset.sum_eq_zero fun time htime => ?_
    have hidx := getVarIndex_lt P.numTasks P.numMachines P.timeSlots task machine time
      (Finset.mem_range.mp htask) (Finset.mem_range.mp hmach) (Finset.mem_range.mp htime)
    rw [if_neg]
    rintro ⟨rfl, rfl⟩
    unfold quboSize at h
    rcases h with h | h <;> omega
  · rw [if_neg hc]

lemma quboDurationTerm_out (P : ProblemInstance) (i j : ℕ)
    (h : quboSize P ≤ i ∨ quboSize P ≤ j) : quboDurationTerm P i j = 0 := by
  unfold quboDurationTerm
  refine Finset.sum_eq_zero fun task htask => ?_
  refine Finset.sum_eq_zero fun machine hmach => ?_
  refine Finset.sum_eq_zero fun startTime hstart => ?_
  refine Finset.sum_eq_zero fun dt hdt => ?_
  have htlt : startTime + dt < P.timeSlots := by
    have h1 := Finset.mem_range.mp hstart
    have h2 := Finset.mem_range.mp hdt
    omega
  have hidx := getVarIndex_lt P.numTasks P.numMachines P.timeSlots task machine
    (startTime + dt) (Finset.mem_range.mp htask) (Finset.mem_range.mp hmach) htlt
  rw [if_neg]
  rintro ⟨rfl, rfl⟩
  unfold quboSize at h
  rcases h with h | h <;> omega

lemma quboPrecedenceTerm_out (P : ProblemInstance) (i j : ℕ)
    (hdeps : ∀ task < P.numTasks, ∀ pred ∈ P.taskDependencies task, pred < P.numTasks)
    (h : quboSize P ≤ i ∨ quboSize P ≤ j) : quboPrecedenceTerm P i j = 0 := by
  unfold quboPrecedenceTerm
  refine Finset.sum_eq_zero fun task htask => ?_
  refine List.sum_eq_zero fun x hx => ?_
  obtain ⟨pred, hpred, rfl⟩ := List.mem_map.mp hx
  have hpredlt : pred < P.numTasks :=
    hdeps task (Finset.mem_range.mp htask) pred hpred
  refine Finset.sum_eq_zero fun m1 hm1 => Finset.sum_eq_zero fun m2 hm2 => ?_
  refine Finset.sum_eq_zero fun t1 ht1 => Finset.sum_eq_zero fun t2 ht2 => ?_
  have ht2lt : t2 < P.timeSlots := (Finset.mem_Ico.mp ht2).2
  have hidx1 := getVarIndex_lt P.numTasks P.numMachines P.timeSlots pred m1 t1
    hpredlt (Finset.mem_range.mp hm1) (Finset.mem_range.mp ht1)
  have hidx2 := getVarIndex_lt P.numTasks P.numMachines P.timeSlots task m2 t2
    (Finset.mem_range.mp htask) (Finset.mem_range.mp hm2) ht2lt
  rw [if_neg]
  rintro ⟨rfl, rfl⟩
  unfold quboSize at h
  rcases h with h | h <;> omega

lemma quboObjectiveTerm_out (P : ProblemInstance) (i j : ℕ)
    (h : quboSize P ≤ i ∨ quboSize P ≤ j) : quboObjectiveTerm P i j = 0 := by
  unfold quboObjectiveTerm
  refine Finset.sum_eq_zero fun task htask => ?_
  refine Finset.sum_eq_zero fun machine hmach => ?_
  refine Finset.sum_eq_zero fun time htime => ?_
  have hidx := getVarIndex_lt P.numTasks P.numMachines P.timeSlots task machine time
    (Finset.mem_range.mp htask) (Finset.mem_range.mp hmach) (Finset.mem_range.mp htime)
  rw [if_neg]
  rintro ⟨rfl, rfl⟩
  unfold quboSize at h
  rcases h with h | h <;> omega

lemma countOverlapPairs_perm {l1 l2 : List MachineEntry} (h : l1.Perm l2) :
    countOverlapPairs l1 = countOverlapPairs l2 := by
  have hsym : ∀ a b : MachineEntry,
      (if a.startTime < b.endTime ∧ b.startTime < a.endTime then (1:ℕ) else 0)
        = (if b.startTime < a.endTime ∧ a.startTime < b.endTime then 1 else 0) :=
    fun a b => if_congr and_comm rfl rfl
  induction h with
  | nil => rfl
  | cons a h ih =>
    simp only [countOverlapPairs]
    rw [ih, (h.map _).sum_eq]
  | swap x y l =>
    simp only [countOverlapPairs, List.map_cons, List.sum_cons]
    rw [hsym y x]
    omega
  | trans h1 h2 ih1 ih2 => exact ih1.trans ih2

/-! ## Concrete problem instances, RNG draws and schedules used in
witnesses and counterexamples.  Each instance's capability and dependency
tables come from `setup_problem`, and its durations are values the
generator can draw (see `durationsValid`). -/

/-- A degenerate RNG: every draw is 0 (every draw value is reachable by
`np.random`). -/
def exampleRng : Rng := ⟨fun _ => 0, fun _ => 0⟩

/-- One assembly task (duration 2), one machine, four time slots. -/
def exampleInstance : ProblemInstance :=
  ⟨1, 1, 4, fun _ => 2, setupCapabilities 1, setupDependencies 1⟩

/-- One assembly task (duration 2), one machine, a single time slot: the
duration exceeds the horizon. -/
def tightInstance : ProblemInstance :=
  ⟨1, 1, 1, fun _ => 2, setupCapabilities 1, setupDependencies 1⟩

/-- Two tasks (assembly duration 2, quality check duration 1), one machine,
five time slots; task 1 depends on task 0 by `setup_problem`. -/
def asymInstance : ProblemInstance :=
  ⟨2, 1, 5, fun t => if t = 0 then 2 else 1, setupCapabilities 2, setupDependencies 2⟩

/-- Task 0 on machine 0 during `[0, 2)`, as a decoded schedule shape. -/
def scheduleA : Schedule :=
  ⟨[(0, ⟨0, 0, 2, 2⟩)], fun m => if m = 0 then [⟨0, 0, 2⟩] else []⟩

/-- Task 0 on machine 0 during `[1, 3)`, as a decoded schedule shape. -/
def scheduleB : Schedule :=
  ⟨[(0, ⟨0, 1, 3, 2⟩)], fun m => if m = 0 then [⟨0, 1, 3⟩] else []⟩

/-! ## Claim theorems -/

/-- C5 corrected: the decoder falls back to the greedy random schedule only
when the assignment vector is absent (`None`, line 268); an **empty** vector
is not treated as absent: the `idx < len(solution_vector)` guard then rejects
every index, no task is recorded, and the decoder returns a schedule with an
empty task dict instead of the fallback. -/
theorem c5_fallback_only_on_none (P : ProblemInstance) (rng : Rng) :
    decodeSolution P rng none = generateRandomSchedule P rng ∧
    (decodeSolution P rng (some [])).tasks = [] := by
  refine ⟨rfl, ?_⟩
  rw [decode_tasks_eq]
  refine List.filterMap_eq_nil_iff.mpr ?_
  intro t _
  unfold decodeTaskInfo
  rw [scanAssignments_nil]
  rfl

/-- C5 counterexample: on a one-task instance whose task machine 0 can run,
the decoder applied to the empty vector returns an empty schedule, while the
greedy random fallback (here at the all-zero draw) schedules task 0 — so an
empty vector does not trigger the fallback, contradicting the claim. -/
theorem c5_counterexample :
    (decodeSolution exampleInstance exampleRng (some [])).tasks = [] ∧
    (generateRandomSchedule exampleInstance exampleRng).tasks = [(0, ⟨0, 0, 2, 2⟩)] := by
  constructor
  · rw [decode_tasks_eq]
    decide
  · decide

/-- C7 corrected: in the greedy random fallback every scheduled task's start
time lies in `[0, max(1, timeSlots - duration) - 1]` — `np.random.randint`'s
upper bound is exclusive, so `timeSlots - duration` itself is never drawn —
and each value of that range is possible.  The start is 0 whenever
`timeSlots - duration <= 0`.  The end time `start + duration` is at most
`timeSlots` only when `duration <= timeSlots`; a task longer than the horizon
is scheduled at 0 and ends at `duration > timeSlots`. -/
theorem c7_random_start_bounds (P : ProblemInstance) (rng : Rng) :
    (∀ e ∈ (generateRandomSchedule P rng).tasks,
      e.2.duration = P.taskDurations e.1 ∧
      e.2.endTime = e.2.startTime + e.2.duration ∧
      e.2.startTime < max 1 (P.timeSlots - e.2.duration) ∧
      (P.timeSlots ≤ e.2.duration → e.2.startTime = 0) ∧
      (e.2.duration ≤ P.timeSlots → e.2.endTime ≤ P.timeSlots)) ∧
    (∀ task < P.numTasks,
      (List.range P.numMachines).filter (fun m => task ∈ P.machineCapabilities m) ≠ [] →
      ∀ s < max 1 (P.timeSlots - P.taskDurations task),
        ∃ rng2 info,
          (generateRandomSchedule P rng2).tasks.lookup task = some info ∧
            info.startTime = s) := by
  constructor
  · intro e hmem
    rw [random_tasks_eq] at hmem
    obtain ⟨t, _, hsome⟩ := List.mem_filterMap.mp hmem
    obtain ⟨info, hinfo, hpair⟩ := Option.map_eq_some'.mp hsome
    unfold randomTaskInfo at hinfo
    by_cases h :
        (List.range P.numMachines).filter (fun m => t ∈ P.machineCapabilities m) ≠ []
    · rw [if_pos h] at hinfo
      have hrec := Option.some.inj hinfo
      subst hrec
      subst hpair
      dsimp only
      have hstart : rng.startPick t % max 1 (P.timeSlots - P.taskDurations t)
          < max 1 (P.timeSlots - P.taskDurations t) := Nat.mod_lt _ (by omega)
      refine ⟨rfl, rfl, hstart, ?_, ?_⟩ <;> · intro hd; omega
    · rw [if_neg h] at hinfo
      exact absurd hinfo Option.noConfusion
  · intro task htask hvm s hs
    refine ⟨⟨fun _ => 0, fun _ => s⟩, ?_⟩
    have hinfo : randomTaskInfo P ⟨fun _ => 0, fun _ => s⟩ task
        = some ⟨((List.range P.numMachines).filter
              (fun m => task ∈ P.machineCapabilities m)).getD
            (0 % ((List.range P.numMachines).filter
              (fun m => task ∈ P.machineCapabilities m)).length) 0,
          s, s + P.taskDurations task, P.taskDurations task⟩ := by
      unfold randomTaskInfo
      rw [if_pos hvm, Nat.mod_eq_of_lt hs]
    refine ⟨⟨((List.range P.numMachines).filter
          (fun m => task ∈ P.machineCapabilities m)).getD
        (0 % ((List.range P.numMachines).filter
          (fun m => task ∈ P.machineCapabilities m)).length) 0,
        s, s + P.taskDurations task, P.taskDurations task⟩, ?_, rfl⟩
    rw [random_tasks_eq]
    exact lookup_filterMap_info (randomTaskInfo P ⟨fun _ => 0, fun _ => s⟩)
      (List.range P.numTasks) (List.nodup_range _) task _
      (List.mem_range.mpr htask) hinfo

/-- C7 witness: on `exampleInstance` (duration 2, four slots) the start value
1 is drawable, and the drawn schedule records it for task 0. -/
theorem c7_random_start_bounds_witness :
    ∃ rng2 info,
      (generateRandomSchedule exampleInstance rng2).tasks.lookup 0 = some info ∧
        info.startTime = 1 :=
  (c7_random_start_bounds exampleInstance exampleRng).2 0 (by decide) (by decide)
    1 (by decide)

/-- C7 counterexample: on `tightInstance` (a generator-reachable instance:
assembly duration 2, a single time slot) the fallback schedules task 0 with
end time 2, which exceeds `timeSlots = 1` — contradicting the claim that
every fallback task ends by `timeSlots`. -/
theorem c7_counterexample :
    durationsValid tightInstance ∧
    (generateRandomSchedule tightInstance exampleRng).tasks.lookup 0
      = some ⟨0, 0, 2, 2⟩ ∧
    tightInstance.timeSlots = 1 ∧ ¬((2:ℕ) ≤ 1) :=
  ⟨by decide, by decide, rfl, by decide⟩

/-- C6 counterexample: two concrete decoded schedules on `exampleInstance`
whose metrics have objective scores 1/2 (quantum side) and 7/20 (classical
side).  The reported `quantum_advantage` is 7/20 - 1/2 (classical minus
quantum), not the claimed strategy-A-minus-strategy-B value 1/2 - 7/20. -/
theorem c6_counterexample :
    (calculateMetrics exampleInstance scheduleA).objectiveScore = some (1/2) ∧
    (calculateMetrics exampleInstance scheduleB).objectiveScore = some (7/20) ∧
    (comparisonDeltas (calculateMetrics exampleInstance scheduleA)
        (calculateMetrics exampleInstance scheduleB)).quantumAdvantage
      = some (7/20 - 1/2) ∧
    (comparisonDeltas (calculateMetrics exampleInstance scheduleA)
        (calculateMetrics exampleInstance scheduleB)).quantumAdvantage
      ≠ some (1/2 - 7/20) := by
  have hA : calculateMetrics exampleInstance scheduleA
      = ⟨(2 : ℕ), 1/2, 1/2, some 0, some (1/2)⟩ := by
    simp [calculateMetrics, checkConstraints, countOverlapPairs, exampleInstance,
      scheduleA, setupCapabilities, setupDependencies, rangeStride4,
      List.range_succ, List.lookup]
    norm_num
  have hB : calculateMetrics exampleInstance scheduleB
      = ⟨(3 : ℕ), 1/4, 1/2, some 0, some (7/20)⟩ := by
    simp [calculateMetrics, checkConstraints, countOverlapPairs, exampleInstance,
      scheduleB, setupCapabilities, setupDependencies, rangeStride4,
      List.range_succ, List.lookup]
    norm_num
  rw [hA, hB]
  refine ⟨rfl, rfl, ?_, ?_⟩
  · unfold comparisonDeltas
    norm_num
  · unfold comparisonDeltas
    simp
    norm_num

/-- C2: the flattening `index(task, machine, time) = task*numMachines*timeSlots
+ machine*timeSlots + time` is a bijection between valid triples and
`[0, numTasks*numMachines*timeSlots)`: every valid triple maps below the bound
and round-trips through `unflattenIndex`, and every index below the bound is
the image of the valid triple `unflattenIndex` produces. -/
theorem c2_var_index_bijection (numTasks numMachines timeSlots task machine time : ℕ)
    (htask : task < numTasks) (hmach : machine < numMachines) (htime : time < timeSlots) :
    getVarIndex numMachines timeSlots task machine time <
        numTasks * numMachines * timeSlots ∧
    unflattenIndex numMachines timeSlots
        (getVarIndex numMachines timeSlots task machine time) = (task, machine, time) ∧
    (∀ idx < numTasks * numMachines * timeSlots,
      (unflattenIndex numMachines timeSlots idx).1 < numTasks ∧
      (unflattenIndex numMachines timeSlots idx).2.1 < numMachines ∧
      (unflattenIndex numMachines timeSlots idx).2.2 < timeSlots ∧
      getVarIndex numMachines timeSlots (unflattenIndex numMachines timeSlots idx).1
        (unflattenIndex numMachines timeSlots idx).2.1
        (unflattenIndex numMachines timeSlots idx).2.2 = idx) := by
  have hT : 0 < timeSlots := by omega
  have hMT : 0 < numMachines * timeSlots := Nat.mul_pos (by omega) hT
  refine ⟨getVarIndex_lt _ _ _ _ _ _ htask hmach htime, ?_, ?_⟩
  · have hmt := mul_time_add_lt numMachines timeSlots machine time hmach htime
    have hidx : getVarIndex numMachines timeSlots task machine time
        = (machine * timeSlots + time) + (numMachines * timeSlots) * task := by
      unfold getVarIndex; ring
    have hdiv : getVarIndex numMachines timeSlots task machine time /
        (numMachines * timeSlots) = task := by
      rw [hidx, Nat.add_mul_div_left _ _ hMT, Nat.div_eq_of_lt hmt, Nat.zero_add]
    have hmod : getVarIndex numMachines timeSlots task machine time %
        (numMachines * timeSlots) = machine * timeSlots + time := by
      rw [hidx, Nat.add_mul_mod_self_left, Nat.mod_eq_of_lt hmt]
    have hmod2 : (machine * timeSlots + time) / timeSlots = machine := by
      rw [show machine * timeSlots + time = time + timeSlots * machine by ring,
        Nat.add_mul_div_left _ _ hT, Nat.div_eq_of_lt htime, Nat.zero_add]
    have hmodT : getVarIndex numMachines timeSlots task machine time % timeSlots
        = time := by
      rw [show getVarIndex numMachines timeSlots task machine time =
          time + timeSlots * (task * numMachines + machine) by unfold getVarIndex; ring,
        Nat.add_mul_mod_self_left, Nat.mod_eq_of_lt htime]
    unfold unflattenIndex
    rw [hdiv, hmod, hmod2, hmodT]
  · intro idx hidx
    have hT' : (0:ℕ) < timeSlots := hT
    have h1 : idx / (numMachines * timeSlots) < numTasks := by
      rw [Nat.div_lt_iff_lt_mul hMT]
      calc idx < numTasks * numMachines * timeSlots := hidx
        _ = numTasks * (numMachines * timeSlots) := by ring
    have hm : idx % (numMachines * timeSlots) < numMachines * timeSlots :=
      Nat.mod_lt _ hMT
    have h2 : idx % (numMachines * timeSlots) / timeSlots < numMachines := by
      rw [Nat.div_lt_iff_lt_mul hT]; exact hm
    have h3 : idx % timeSlots < timeSlots := Nat.mod_lt _ hT
    refine ⟨h1, h2, h3, ?_⟩
    have hsplit : idx % timeSlots = idx % (numMachines * timeSlots) % timeSlots :=
      (Nat.mod_mod_of_dvd idx ⟨numMachines, by ring⟩).symm
    unfold unflattenIndex getVarIndex
    calc idx / (numMachines * timeSlots) * numMachines * timeSlots +
          idx % (numMachines * timeSlots) / timeSlots * timeSlots + idx % timeSlots
        = (numMachines * timeSlots) * (idx / (numMachines * timeSlots)) +
            (timeSlots * (idx % (numMachines * timeSlots) / timeSlots) +
              idx % (numMachines * timeSlots) % timeSlots) := by rw [hsplit]; ring
      _ = (numMachines * timeSlots) * (idx / (numMachines * timeSlots)) +
            idx % (numMachines * timeSlots) := by rw [Nat.div_add_mod]
      _ = idx := Nat.div_add_mod idx (numMachines * timeSlots)

/-- C2 witness: the bijection facts at the concrete point
`(numTasks, numMachines, timeSlots) = (2, 3, 4)`, triple `(1, 2, 3)`
(index 23) and back-decoded index 17. -/
theorem c2_var_index_bijection_witness :
    getVarIndex 3 4 1 2 3 < 24 ∧
    unflattenIndex 3 4 (getVarIndex 3 4 1 2 3) = (1, 2, 3) ∧
    getVarIndex 3 4 (unflattenIndex 3 4 17).1 (unflattenIndex 3 4 17).2.1
      (unflattenIndex 3 4 17).2.2 = 17 := by
  have h := c2_var_index_bijection 2 3 4 1 2 3 (by decide) (by decide) (by decide)
  exact ⟨h.1, h.2.1, (h.2.2 17 (by decide)).2.2.2⟩

/-- C4 corrected: `create_qubo_matrix` performs no size validation at all.
There is no `InvalidProblemSize` error: the allocation succeeds exactly when
the product of the dimensions is non-negative (in particular any zero
dimension succeeds with an empty matrix), and only a negative product fails —
at allocation time, with numpy's generic negative-dimension `ValueError`.
For positive sizes no error is raised (that part of the claim holds). -/
theorem c4_no_size_validation (numTasks numMachines timeSlots : ℤ) :
    (quboAllocationResult numTasks numMachines timeSlots
        = Except.ok (numTasks * numMachines * timeSlots) ↔
      0 ≤ numTasks * numMachines * timeSlots) ∧
    (0 < numTasks → 0 < numMachines → 0 < timeSlots →
      quboAllocationResult numTasks numMachines timeSlots
        = Except.ok (numTasks * numMachines * timeSlots)) := by
  constructor
  · unfold quboAllocationResult
    split_ifs with h
    · simp only [reduceCtorEq, false_iff]
      exact not_le.mpr h
    · simp only [Except.ok.injEq, true_iff]
      exact not_lt.mp h
  · intro hn hm ht
    unfold quboAllocationResult
    rw [if_neg (not_lt.mpr (mul_pos (mul_pos hn hm) ht).le)]

/-- C4 witness: at the positive sizes `(2, 3, 4)` the allocation succeeds. -/
theorem c4_no_size_validation_witness :
    quboAllocationResult 2 3 4 = Except.ok 24 :=
  (c4_no_size_validation 2 3 4).2 (by decide) (by decide) (by decide)

/-- C4 counterexample: with the non-positive dimension `numTasks = 0` the
builder does not fail at all — it allocates an empty matrix — contradicting
the claimed `InvalidProblemSize` failure for non-positive sizes. -/
theorem c4_counterexample : quboAllocationResult 0 1 1 = Except.ok 0 := rfl

/-- C6 corrected: the comparison report does not use a single fixed
strategy-A-minus-strategy-B convention.  The efficiency and utilization
deltas are quantum (strategy A) minus classical (strategy B), but the
objective-score delta (`quantum_advantage`) is the opposite: classical minus
quantum. -/
theorem c6_delta_conventions (quantumMetrics classicalMetrics : Metrics)
    (qv cv : ℚ) (hq : quantumMetrics.objectiveScore = some qv)
    (hc : classicalMetrics.objectiveScore = some cv) :
    (comparisonDeltas quantumMetrics classicalMetrics).efficiencyImprovement
        = quantumMetrics.efficiency - classicalMetrics.efficiency ∧
    (comparisonDeltas quantumMetrics classicalMetrics).utilizationImprovement
        = quantumMetrics.utilization - classicalMetrics.utilization ∧
    (comparisonDeltas quantumMetrics classicalMetrics).quantumAdvantage
        = some (cv - qv) := by
  refine ⟨rfl, rfl, ?_⟩
  unfold comparisonDeltas
  rw [hq, hc]
  rfl

/-- C6 witness: the three deltas at a concrete pair of metrics records. -/
theorem c6_delta_conventions_witness :
    (comparisonDeltas ⟨2, 1, 1, some 0, some 1⟩
      ⟨3, 0, 0, some 0, some 0⟩).efficiencyImprovement = 1 - 0 ∧
    (comparisonDeltas ⟨2, 1, 1, some 0, some 1⟩
      ⟨3, 0, 0, some 0, some 0⟩).quantumAdvantage = some ((0:ℚ) - 1) := by
  have h := c6_delta_conventions ⟨2, 1, 1, some 0, some 1⟩
    ⟨3, 0, 0, some 0, some 0⟩ 1 0 rfl rfl
  exact ⟨h.1, h.2.2⟩

/-- C10: on a schedule with no scheduled tasks, `calculate_metrics` returns
makespan `float('inf')` (`⊤`), efficiency 0, utilization 0, with neither a
`constraint_violations` nor an `objective_score` key; consequently the
comparison report's objective-score delta (which reads `objective_score`
from both metrics dicts) is undefined whichever side the empty-schedule run
is on. -/
theorem c10_empty_schedule_metrics (P : ProblemInstance) (s : Schedule)
    (h : s.tasks = []) (other : Metrics) :
    calculateMetrics P s = ⟨⊤, 0, 0, none, none⟩ ∧
    (comparisonDeltas other (calculateMetrics P s)).quantumAdvantage = none ∧
    (comparisonDeltas (calculateMetrics P s) other).quantumAdvantage = none := by
  have hm : calculateMetrics P s = ⟨⊤, 0, 0, none, none⟩ := by
    unfold calculateMetrics
    rw [if_pos h]
  refine ⟨hm, ?_, ?_⟩
  · unfold comparisonDeltas
    rw [hm]
    rfl
  · unfold comparisonDeltas
    rw [hm]
    cases other.objectiveScore <;> rfl

/-- C10 witness: the empty-metrics facts at a concrete empty schedule. -/
theorem c10_empty_schedule_metrics_witness :
    calculateMetrics ⟨1, 1, 1, fun _ => 1, setupCapabilities 1, setupDependencies 1⟩
        ⟨[], fun _ => []⟩ = ⟨⊤, 0, 0, none, none⟩ ∧
    (comparisonDeltas ⟨2, 1, 1, some 0, some 1⟩
      (calculateMetrics ⟨1, 1, 1, fun _ => 1, setupCapabilities 1, setupDependencies 1⟩
        ⟨[], fun _ => []⟩)).quantumAdvantage = none := by
  have h := c10_empty_schedule_metrics
    ⟨1, 1, 1, fun _ => 1, setupCapabilities 1, setupDependencies 1⟩
    ⟨[], fun _ => []⟩ rfl ⟨2, 1, 1, some 0, some 1⟩
  exact ⟨h.1, h.2.1⟩

/-- C8: the violation count of `check_constraints` is invariant under
permuting each per-machine timeline: schedules with the same task dict whose
machine lists are permutations of each other get the same count, because the
`i < j` double loop counts each unordered position pair once and the
half-open-interval overlap test is symmetric. -/
theorem c8_violations_perm_invariant (P : ProblemInstance) (s1 s2 : Schedule)
    (htasks : s1.tasks = s2.tasks)
    (hperm : ∀ m, (s1.machines m).Perm (s2.machines m)) :
    checkConstraints P s1 = checkConstraints P s2 := by
  unfold checkConstraints
  rw [htasks]
  have hov : (List.range P.numMachines).map
        (fun machine => countOverlapPairs (s1.machines machine))
      = (List.range P.numMachines).map
        (fun machine => countOverlapPairs (s2.machines machine)) :=
    List.map_congr_left (fun m _ => countOverlapPairs_perm (hperm m))
  rw [hov]

/-- C8 witness: two concrete schedules on `asymInstance` differing only in
the insertion order of machine 0's timeline get equal violation counts. -/
theorem c8_violations_perm_invariant_witness :
    checkConstraints asymInstance
        ⟨[(0, ⟨0, 0, 2, 2⟩), (1, ⟨0, 1, 3, 1⟩)],
          fun m => if m = 0 then [⟨0, 0, 2⟩, ⟨1, 1, 3⟩] else []⟩
      = checkConstraints asymInstance
        ⟨[(0, ⟨0, 0, 2, 2⟩), (1, ⟨0, 1, 3, 1⟩)],
          fun m => if m = 0 then [⟨1, 1, 3⟩, ⟨0, 0, 2⟩] else []⟩ :=
  c8_violations_perm_invariant asymInstance
    ⟨[(0, ⟨0, 0, 2, 2⟩), (1, ⟨0, 1, 3, 1⟩)],
      fun m => if m = 0 then [⟨0, 0, 2⟩, ⟨1, 1, 3⟩] else []⟩
    ⟨[(0, ⟨0, 0, 2, 2⟩), (1, ⟨0, 1, 3, 1⟩)],
      fun m => if m = 0 then [⟨1, 1, 3⟩, ⟨0, 0, 2⟩] else []⟩
    rfl
    (fun m => by
      dsimp only
      by_cases hm : m = 0
      · rw [if_pos hm, if_pos hm]
        exact List.Perm.swap _ _ _
      · rw [if_neg hm, if_neg hm])

/-- C9 corrected: for every schedule, efficiency lies in `[0, 1]` and
utilization is non-negative, but utilization is bounded by 1 only when the
total scheduled duration is at most `numMachines * timeSlots`; the code
divides the total busy time by that capacity with no clamping, so utilization
exceeds 1 whenever the scheduled durations exceed the capacity. -/
theorem c9_metrics_bounds (P : ProblemInstance) (s : Schedule)
    (hm : 0 < P.numMachines) (ht : 0 < P.timeSlots) :
    0 ≤ (calculateMetrics P s).efficiency ∧
    (calculateMetrics P s).efficiency ≤ 1 ∧
    0 ≤ (calculateMetrics P s).utilization ∧
    ((s.tasks.map (fun e => e.2.duration)).sum ≤ P.numMachines * P.timeSlots →
      (calculateMetrics P s).utilization ≤ 1) := by
  have hT : (0:ℚ) < (P.timeSlots : ℚ) := by exact_mod_cast ht
  have hMT : (0:ℚ) < ((P.numMachines * P.timeSlots : ℕ) : ℚ) := by
    exact_mod_cast Nat.mul_pos hm ht
  unfold calculateMetrics
  by_cases h : s.tasks = []
  · rw [if_pos h]
    norm_num
  · rw [if_neg h]
    dsimp only
    generalize (s.tasks.map (fun e => e.2.endTime)).foldl max 0 = ms
    refine ⟨?_, ?_, ?_, ?_⟩
    · split_ifs with hms
      · have h1 : (ms : ℚ) < (P.timeSlots : ℚ) := by exact_mod_cast hms
        apply div_nonneg _ hT.le
        linarith
      · exact le_refl 0
    · split_ifs with hms
      · rw [div_le_one hT]
        have h2 : (0:ℚ) ≤ (ms : ℚ) := Nat.cast_nonneg _
        linarith
      · norm_num
    · exact div_nonneg (Nat.cast_nonneg _) (Nat.cast_nonneg _)
    · intro hsum
      rw [div_le_one hMT]
      exact_mod_cast hsum

/-- C9 witness: the bounds at the concrete schedule `scheduleA` on
`exampleInstance`, whose total duration 2 fits the capacity 4. -/
theorem c9_metrics_bounds_witness :
    0 ≤ (calculateMetrics exampleInstance scheduleA).efficiency ∧
    (calculateMetrics exampleInstance scheduleA).efficiency ≤ 1 ∧
    0 ≤ (calculateMetrics exampleInstance scheduleA).utilization ∧
    (calculateMetrics exampleInstance scheduleA).utilization ≤ 1 := by
  have h := c9_metrics_bounds exampleInstance scheduleA (by decide) (by decide)
  exact ⟨h.1, h.2.1, h.2.2.1, h.2.2.2 (by decide)⟩

/-- C9 counterexample: on the generator-reachable `tightInstance` (assembly
duration 2, one machine, one slot) the decoder applied to the binary vector
`[1]` schedules task 0, and the resulting utilization is 2 — outside `[0,1]`,
contradicting the claim. -/
theorem c9_counterexample :
    durationsValid tightInstance ∧
    1 < (calculateMetrics tightInstance
      (decodeSolution tightInstance exampleRng (some [1]))).utilization := by
  constructor
  · decide
  · simp [decodeSolution, decodeStep, scanAssignments, mtPairs, getVarIndex,
      tightInstance, List.range_succ, sortByStart, insertByStart,
      calculateMetrics, checkConstraints, countOverlapPairs, setupCapabilities,
      setupDependencies, rangeStride4, List.lookup]

/-- C3 corrected: for every assignment vector that covers all decision
variables (length at least `numTasks*numMachines*timeSlots`) and whose entries
all exceed the `-1` sentinel (in particular any binary or `[0,1]`-continuous
vector of full dimension), the decoder records for each task the
`(machine, time)` pair with the highest vector value, ties broken by the
first-encountered pair in machine-major, time-minor order, as
`{machine, start = time, end = time + duration}`.  (For shorter vectors only
in-range indices compete, and a task whose in-range values are all `<= -1` is
omitted — see the counterexample.) -/
theorem c3_decoder_argmax (P : ProblemInstance) (rng : Rng) (v : List ℚ)
    (task : ℕ) (htask : task < P.numTasks) (hm : 0 < P.numMachines)
    (ht : 0 < P.timeSlots) (hlen : quboSize P ≤ v.length)
    (hv : ∀ i < v.length, (-1 : ℚ) < v.getD i 0) :
    ∃ p : ℕ × ℕ,
      specSelectedPair P v task = some p ∧
      (decodeSolution P rng (some v)).tasks.lookup task
        = some ⟨p.1, p.2, p.2 + P.taskDurations task, P.taskDurations task⟩ := by
  have hidx : ∀ p ∈ mtPairs P,
      getVarIndex P.numMachines P.timeSlots task p.1 p.2 < v.length := by
    intro p hp
    obtain ⟨h1, h2⟩ := (mem_mtPairs P p).mp hp
    exact lt_of_lt_of_le
      (getVarIndex_lt P.numTasks P.numMachines P.timeSlots task p.1 p.2 htask h1 h2)
      hlen
  have hscan : scanAssignments P v task
      = (mtPairs P).foldl
          (fun acc p => if acc.1 < pairValue P v task p
            then (pairValue P v task p, some p) else acc)
          (-1, none) := by
    unfold scanAssignments
    refine List.foldl_ext _ _ _ ?_
    intro acc p hp
    exact if_congr (and_iff_right (hidx p hp)) rfl rfl
  have hmem00 : ((0 : ℕ), (0 : ℕ)) ∈ mtPairs P := (mem_mtPairs P _).mpr ⟨hm, ht⟩
  have hM : (-1 : ℚ) <
      ((mtPairs P).map (pairValue P v task)).foldl max (-1) :=
    lt_of_lt_of_le (hv _ (hidx _ hmem00))
      (mem_le_foldl_max _ _ _ (List.mem_map_of_mem _ hmem00))
  have hscan2 : scanAssignments P v task
      = (((mtPairs P).map (pairValue P v task)).foldl max (-1),
          (mtPairs P).find? (fun p => decide (pairValue P v task p
            = ((mtPairs P).map (pairValue P v task)).foldl max (-1)))) := by
    rw [hscan, scan_foldl_spec (pairValue P v task) (mtPairs P) (-1) none,
      if_pos hM]
  obtain ⟨p0, hp0mem, hp0val⟩ : ∃ p ∈ mtPairs P, pairValue P v task p
      = ((mtPairs P).map (pairValue P v task)).foldl max (-1) := by
    rcases foldl_max_mem ((mtPairs P).map (pairValue P v task)) (-1) with h | h
    · exact absurd h (ne_of_gt hM)
    · obtain ⟨p, hp, hval⟩ := List.mem_map.mp h
      exact ⟨p, hp, hval⟩
  obtain ⟨q, hq⟩ : ∃ q, (mtPairs P).find? (fun p => decide (pairValue P v task p
      = ((mtPairs P).map (pairValue P v task)).foldl max (-1))) = some q := by
    have hsome : ((mtPairs P).find? (fun p => decide (pairValue P v task p
        = ((mtPairs P).map (pairValue P v task)).foldl max (-1)))).isSome :=
      List.find?_isSome.mpr ⟨p0, hp0mem, decide_eq_true hp0val⟩
    exact Option.isSome_iff_exists.mp hsome
  refine ⟨q, hq, ?_⟩
  rw [decode_tasks_eq]
  refine lookup_filterMap_info (decodeTaskInfo P v) (List.range P.numTasks)
    (List.nodup_range _) task _ (List.mem_range.mpr htask) ?_
  unfold decodeTaskInfo
  rw [hscan2]
  dsimp only
  rw [hq]
  rfl

/-- C3 witness: on `exampleInstance` with the full-length binary vector
`[1, 0, 0, 0]`, the decoder's selection for task 0 matches the spec's
first-maximum rule. -/
theorem c3_decoder_argmax_witness :
    ∃ p : ℕ × ℕ,
      specSelectedPair exampleInstance [1, 0, 0, 0] 0 = some p ∧
      (decodeSolution exampleInstance exampleRng
          (some [1, 0, 0, 0])).tasks.lookup 0
        = some ⟨p.1, p.2, p.2 + exampleInstance.taskDurations 0,
            exampleInstance.taskDurations 0⟩ :=
  c3_decoder_argmax exampleInstance exampleRng [1, 0, 0, 0] 0 (by decide)
    (by decide) (by decide) (by decide) (by decide)

/-- C3 counterexample: the decoder does not record an entry for every task
on every non-`None` vector.  On `exampleInstance` the length-1 vector `[-1]`
(the shape `solve_qaoa` passes: `optimal_point` is a parameter vector shorter
than the variable count, with entries not exceeding -1 here) leaves task 0
without any recorded assignment, because the in-range value -1 never beats
the initial `best_value = -1`. -/
theorem c3_counterexample :
    (decodeSolution exampleInstance exampleRng (some [-1])).tasks.lookup 0
      = none := by
  rw [decode_tasks_eq]
  simp [decodeTaskInfo, scanAssignments, mtPairs, getVarIndex, exampleInstance,
    List.range_succ]

/-- C1 corrected: for every problem instance (with the generator's invariant
that dependency entries name valid tasks) every contribution of
`create_qubo_matrix` lies inside the `numTasks*numMachines*timeSlots` square
(entries outside it are zero — the matrix is square of that dimension), and
the matrix minus its precedence term is symmetric: the one-hot, capability,
duration and objective terms are all symmetric, but the precedence term
(lines 128-139) writes only `Q[pred_idx, dep_idx]` and never the transposed
entry, so `Q` itself is not symmetric whenever that term contributes. -/
theorem c1_qubo_square_except_precedence (P : ProblemInstance)
    (hdeps : ∀ task < P.numTasks, ∀ pred ∈ P.taskDependencies task,
      pred < P.numTasks) :
    (∀ i j, quboSize P ≤ i ∨ quboSize P ≤ j → quboEntry P i j = 0) ∧
    (∀ i j, quboEntry P i j - quboPrecedenceTerm P i j
        = quboEntry P j i - quboPrecedenceTerm P j i) := by
  constructor
  · intro i j h
    unfold quboEntry
    rw [quboOneHotTerm_out P i j h, quboCapabilityTerm_out P i j h,
      quboDurationTerm_out P i j h, quboPrecedenceTerm_out P i j hdeps h,
      quboObjectiveTerm_out P i j h]
    norm_num
  · intro i j
    unfold quboEntry
    rw [quboOneHotTerm_comm P i j, quboCapabilityTerm_comm P i j,
      quboDurationTerm_comm P i j, quboObjectiveTerm_comm P i j]
    ring

/-- C1 witness: on `exampleInstance` (dimension 4) the entry at the
out-of-square index pair (4, 0) is zero and the non-precedence part is
symmetric at (0, 1). -/
theorem c1_qubo_square_except_precedence_witness :
    quboEntry exampleInstance 4 0 = 0 ∧
    quboEntry exampleInstance 0 1 - quboPrecedenceTerm exampleInstance 0 1
      = quboEntry exampleInstance 1 0 - quboPrecedenceTerm exampleInstance 1 0 := by
  have h := c1_qubo_square_except_precedence exampleInstance (by decide)
  exact ⟨h.1 4 0 (Or.inl (by decide)), h.2 0 1⟩

/-- C1 counterexample: on the generator-reachable `asymInstance` (two tasks,
one machine, five slots, durations 2 and 1; task 1 depends on task 0) the
precedence term puts -20 at entry (0, 7) while entry (7, 0) is 0, so the
matrix is not symmetric, contradicting the claim. -/
theorem c1_counterexample :
    durationsValid asymInstance ∧
    quboEntry asymInstance 0 7 = -20 ∧
    quboEntry asymInstance 7 0 = 0 ∧
    quboEntry asymInstance 0 7 ≠ quboEntry asymInstance 7 0 := by
  have h07 : quboEntry asymInstance 0 7 = -20 := by
    simp [quboEntry, quboOneHotTerm, quboCapabilityTerm, quboDurationTerm,
      quboPrecedenceTerm, quboObjectiveTerm, getVarIndex, asymInstance,
      setupCapabilities, setupDependencies, rangeStride4, Finset.sum_range_succ,
      Finset.sum_Ico_eq_sum_range, List.range_succ, Function.update]
  have h70 : quboEntry asymInstance 7 0 = 0 := by
    simp [quboEntry, quboOneHotTerm, quboCapabilityTerm, quboDurationTerm,
      quboPrecedenceTerm, quboObjectiveTerm, getVarIndex, asymInstance,
      setupCapabilities, setupDependencies, rangeStride4, Finset.sum_range_succ,
      Finset.sum_Ico_eq_sum_range, List.range_succ, Function.update]
  refine ⟨by decide, h07, h70, ?_⟩
  rw [h07, h70]
  norm_num
